import Mathlib

/-
Verification development for the tactical-viewer-app loader scripts.

The loaders (src/scripts/load_tracking_10fps.py, load_smoothballs_10fps.py,
load_smoothtracking_10fps.py, load_events_multi.py, load_metadata.py,
load_rosters_batch.py) share a streaming ingestion pipeline: parse records,
downsample by time, build typed rows, deduplicate by composite key, batch,
and upsert with retry on transient failures.

Embedding conventions:
- JSON scalar values are modelled by `Val` (null, integer, number, string,
  boolean).  Python floats are modelled by `ℚ`; the arithmetic the scripts
  perform on timestamps (subtraction, comparison) is exact on the values of
  interest, so `ℚ` is a faithful model of it.
- A Python dict row is an association list `List (String × Val)`;
  `dict.get` returning `None` both for an absent key and for a stored null
  is modelled by `getPy`.
- Python `int(x)` / `float(x)` are modelled by `pyInt` / `pyFloat`,
  returning `Except` to model the `TypeError` / `ValueError` they raise.
- The destination store is a map from (table, composite-key tuple) to row;
  an upsert is a keyed overwrite.
-/

namespace TVA

/-- A JSON scalar value as the loader scripts see it after json.loads. -/
inductive Val where
  | null
  | vint (n : ℤ)
  | vnum (x : ℚ)
  | vstr (s : String)
  | vbool (b : Bool)
deriving DecidableEq, Repr

/-- A row dict: association list from field name to value. -/
abbrev Row := List (String × Val)

/-- A composite-key tuple: `tuple(r.get(f) for f in key_fields)`. -/
abbrev Key := List (Option Val)

/-- Raw association-list lookup of a field in a row. -/
def assocGet (r : Row) (f : String) : Option Val :=
  (r.find? (fun p => decide (p.1 = f))).map (fun p => p.2)

/-- Python `obj.get(f)`: `None` both when the key is absent and when the
stored value is null. -/
def getPy (r : Row) (f : String) : Option Val :=
  match assocGet r f with
  | some Val.null => none
  | some v => some v
  | none => none

/-- Python `obj.get(f)` as a stored value (missing becomes null), used where
the scripts store the raw lookup into a row field. -/
def getValD (r : Row) (f : String) : Val :=
  match getPy r f with
  | some v => v
  | none => Val.null

/-- Python `obj.get(f)` filtered by the scripts' `not in (None, "")` guard. -/
def getPyNE (r : Row) (f : String) : Option Val :=
  match getPy r f with
  | some (Val.vstr "") => none
  | o => o

/-- Truncation toward zero, the behavior of Python `int()` on a number. -/
def pyTrunc (q : ℚ) : ℤ :=
  if 0 ≤ q then Int.floor q else Int.ceil q

/-- Decimal digit value of a character, if it is a digit. -/
def digitOf (c : Char) : Option Nat :=
  let n := c.toNat
  if 48 ≤ n ∧ n ≤ 57 then some (n - 48) else none

/-- Accumulate the decimal digits of a character list. -/
def parseNatGo : List Char → Nat → Option Nat
  | [], acc => some acc
  | c :: cs, acc =>
    match digitOf c with
    | some d => parseNatGo cs (acc * 10 + d)
    | none => none

/-- Parse a nonempty all-digit character list as a natural number. -/
def parseNatL (cs : List Char) : Option Nat :=
  match cs with
  | [] => none
  | _ => parseNatGo cs 0

/-- Parse an optionally signed digit string as an integer, the strings
Python `int()` accepts in this data. -/
def parseIntL (cs : List Char) : Option ℤ :=
  match cs with
  | '-' :: rest => (parseNatL rest).map (fun n => -(n : ℤ))
  | '+' :: rest => (parseNatL rest).map (fun n => (n : ℤ))
  | _ => (parseNatL cs).map (fun n => (n : ℤ))

/-- Split a character list at every dot. -/
def splitDot : List Char → List (List Char)
  | [] => [[]]
  | x :: xs =>
    match splitDot xs with
    | [] => [[]]
    | g :: gs => if x = '.' then [] :: g :: gs else (x :: g) :: gs

/-- Parse a decimal literal string to an exact rational; models the strings
Python `float()` accepts in the data at hand (optional sign, digits, one
optional fractional part). -/
def parseDecimal (s : String) : Option ℚ :=
  match splitDot s.data with
  | [a] => (parseIntL a).map (fun n => (n : ℚ))
  | [a, b] =>
    match parseIntL a, parseNatL b with
    | some n, some frac =>
      let mag : ℚ := (n.natAbs : ℚ) + (frac : ℚ) / ((10 : ℚ) ^ b.length)
      some (if s.data.head? = some '-' then -mag else mag)
    | _, _ => none
  | _ => none

/-- Python `int(x)`: raises TypeError on None, ValueError on a non-numeric
string; truncates numbers toward zero. -/
def pyInt : Val → Except String ℤ
  | Val.null => Except.error "TypeError"
  | Val.vint n => Except.ok n
  | Val.vnum q => Except.ok (pyTrunc q)
  | Val.vstr s =>
    match parseIntL s.data with
    | some n => Except.ok n
    | none => Except.error "ValueError"
  | Val.vbool b => Except.ok (if b then 1 else 0)

/-- Python `float(x)`: raises TypeError on None, ValueError on a non-numeric
string. -/
def pyFloat : Val → Except String ℚ
  | Val.null => Except.error "TypeError"
  | Val.vint n => Except.ok (n : ℚ)
  | Val.vnum q => Except.ok q
  | Val.vstr s =>
    match parseDecimal s with
    | some q => Except.ok q
    | none => Except.error "ValueError"
  | Val.vbool b => Except.ok (if b then 1 else 0)

/-- Coerce an optional field value, propagating a raised error; models the
`coerce(obj.get(f)) if obj.get(f) is not None else None` pattern. -/
def coerceOpt (coerce : Val → Except String α) : Option Val → Except String (Option α)
  | none => Except.ok none
  | some v => (coerce v).map some

/-- Store an optional integer into a row field. -/
def optIntVal : Option ℤ → Val
  | none => Val.null
  | some n => Val.vint n

/-- Store an optional number into a row field. -/
def optNumVal : Option ℚ → Val
  | none => Val.null
  | some q => Val.vnum q

/-- safe_int from load_events_multi.py: defensive integer coercion, null on
missing or unparseable input, never a raise. -/
def safe_int (x : Val) : Option ℤ :=
  match x with
  | Val.null => none
  | v => (pyInt v).toOption

/-- safe_float from load_events_multi.py: defensive float coercion. -/
def safe_float (x : Val) : Option ℚ :=
  match x with
  | Val.null => none
  | v => (pyFloat v).toOption

/-- build_frame from load_tracking_10fps.py (lines 35-45): every numeric
field is converted with a bare `int(...)` / `float(...)` guarded only
against None, so a non-numeric value raises. -/
def build_frame (obj : Row) (game_id : ℤ) : Except String Row := do
  let frame_num ← coerceOpt pyInt (getPy obj "frameNum")
  let video_time_ms ← coerceOpt pyFloat (getPy obj "videoTimeMs")
  let period ← coerceOpt pyInt (getPy obj "period")
  let period_elapsed_time ← coerceOpt pyFloat (getPy obj "periodElapsedTime")
  let period_game_clock_time ← coerceOpt pyFloat (getPy obj "periodGameClockTime")
  let game_event_id ← coerceOpt pyInt (getPyNE obj "game_event_id")
  let possession_event_id ← coerceOpt pyInt (getPyNE obj "possession_event_id")
  Except.ok [
    ("game_id", Val.vint game_id),
    ("frame_num", optIntVal frame_num),
    ("video_time_ms", optNumVal video_time_ms),
    ("period", optIntVal period),
    ("period_elapsed_time", optNumVal period_elapsed_time),
    ("period_game_clock_time", optNumVal period_game_clock_time),
    ("game_event_id", optIntVal game_event_id),
    ("possession_event_id", optIntVal possession_event_id)]

/-- The composite-key tuple `tuple(r.get(f) for f in key_fields)` used by
dedupe_rows. -/
def keyTuple (r : Row) (kf : List String) : Key :=
  kf.map (fun f => getPy r f)

/-- Does the dict have an entry for key k. -/
def hasKeyA (m : List (Key × Row)) (k : Key) : Bool :=
  m.any (fun p => decide (p.1 = k))

/-- Python dict assignment `out[k] = r` on an insertion-ordered dict: if the
key exists its value is replaced in place, otherwise the pair is appended. -/
def upsertA (m : List (Key × Row)) (k : Key) (r : Row) : List (Key × Row) :=
  if hasKeyA m k then
    m.map (fun p => if p.1 = k then (k, r) else p)
  else
    m ++ [(k, r)]

/-- Dict lookup on the insertion-ordered association list. -/
def lookupA (m : List (Key × Row)) (k : Key) : Option Row :=
  (m.find? (fun p => decide (p.1 = k))).map (fun p => p.2)

/-- The loop of dedupe_rows: `for r in rows: out[k] = r`. -/
def dedupeGo (kf : List String) : List (Key × Row) → List Row → List (Key × Row)
  | m, [] => m
  | m, r :: rs => dedupeGo kf (upsertA m (keyTuple r kf) r) rs

/-- dedupe_rows from load_smoothballs_10fps.py (lines 73-79) and
load_smoothtracking_10fps.py (lines 7-16): deduplicate by composite key,
keeping the LAST occurrence, returning `list(out.values())`. -/
def dedupe_rows (rows : List Row) (kf : List String) : List Row :=
  (dedupeGo kf [] rows).map (fun p => p.2)

/-- The downsampling loop shared by the tracking loaders: drop a record
without a timestamp; otherwise keep it iff no record was kept yet or it is
at least dt beyond the last kept timestamp, updating the last kept
timestamp on keeping. -/
def downsampleFrom (ts : α → Option ℚ) (dt : ℚ) : Option ℚ → List α → List α
  | _, [] => []
  | last, r :: rs =>
    match ts r with
    | none => downsampleFrom ts dt last rs
    | some t =>
      match last with
      | none => r :: downsampleFrom ts dt (some t) rs
      | some l =>
        if t - l < dt then downsampleFrom ts dt (some l) rs
        else r :: downsampleFrom ts dt (some t) rs

/-- Downsampler with the initial unset last-kept timestamp. -/
def downsample (ts : α → Option ℚ) (dt : ℚ) (l : List α) : List α :=
  downsampleFrom ts dt none l

/-- TRANSIENT_KEYWORDS, identical across the three tracking loaders. -/
def TRANSIENT_KEYWORDS : List String :=
  ["ConnectionTerminated", "RemoteProtocolError", "ReadTimeout",
   "WriteTimeout", "ConnectTimeout", "Server disconnected",
   "502", "503", "504"]

/-- Whether the first character list is an initial segment of the second. -/
def isPrefixL : List Char → List Char → Bool
  | [], _ => true
  | _ :: _, [] => false
  | a :: as, b :: bs => a == b && isPrefixL as bs

/-- Whether the first character list occurs contiguously in the second. -/
def isInfixL : List Char → List Char → Bool
  | k, [] => k.isEmpty
  | k, c :: rest => isPrefixL k (c :: rest) || isInfixL k rest

/-- Substring test, modelling Python `k in s`. -/
def strContains (s k : String) : Bool :=
  isInfixL k.data s.data

/-- is_transient: the textual representation of the exception matches one of
the transient keywords. -/
def is_transient (e : String) : Bool :=
  TRANSIENT_KEYWORDS.any (fun k => strContains e k)

/-- Backoff delay computed on a transient failure at 0-indexed `attempt`:
`min(60.0, 2 ** attempt) + random.random()` with the jitter passed in. -/
def backoff (attempt : Nat) (jitter : ℚ) : ℚ :=
  min 60 ((2 : ℚ) ^ attempt) + jitter

/-- Observable outcome of one safe_upsert call: attempts made, upserts that
actually applied, the propagated exception if any, client replacements
performed on the shared holder, and the sleep delays taken. -/
structure UpsertRun where
  attempts : Nat
  applied : Nat
  error : Option String
  replacements : Nat
  sleeps : List ℚ
deriving DecidableEq, Repr

/-- The retry loop of safe_upsert.  `out k` is the outcome of the k-th
attempt (`none` = the upsert call succeeds, `some e` = it raises e);
`jit k` is the jitter drawn on attempt k; `fuel` counts the remaining
iterations of `for attempt in range(max_retries)`. -/
def safeUpsertGo (out : Nat → Option String) (jit : Nat → ℚ) (mr : Nat) :
    Nat → Nat → UpsertRun
  | _, 0 => ⟨0, 0, none, 0, []⟩
  | attempt, fuel + 1 =>
    match out attempt with
    | none => ⟨1, 1, none, 0, []⟩
    | some e =>
      if is_transient e = false ∨ attempt = mr - 1 then
        ⟨1, 0, some e, 0, []⟩
      else
        let r := safeUpsertGo out jit mr (attempt + 1) fuel
        ⟨r.attempts + 1, r.applied, r.error, r.replacements + 1,
         backoff attempt (jit attempt) :: r.sleeps⟩

/-- Default retry budget of safe_upsert. -/
def max_retries_default : Nat := 8

/-- safe_upsert from load_tracking_10fps.py (lines 90-106), identical in the
other tracking loaders: return immediately on an empty row list, otherwise
attempt the upsert up to max_retries times, retrying (after recreating the
client and sleeping) only on transient failures that are not the final
attempt. -/
def safe_upsert (table : String) (rows : List Row)
    (out : Nat → Option String) (jit : Nat → ℚ) (mr : Nat) : UpsertRun :=
  if rows.isEmpty then ⟨0, 0, none, 0, []⟩
  else safeUpsertGo out jit mr 0 mr

/-- Configuration of the smoothballs loader main loop. -/
structure SBCfg where
  minDtMs : ℚ
  batchFrames : Nat
  batchBalls : Nat
  dryRun : Bool

/-- Shape of the "ballsSmoothed" field as distinguished by
build_balls_smoothed: absent-or-null, a dict, a list, or anything else. -/
inductive BallItem where
  | idict (d : Row)
  | iother
deriving DecidableEq, Repr

/-- The normalization cases for the "ballsSmoothed" value. -/
inductive BallsField where
  | missing
  | bdict (d : Row)
  | blist (items : List BallItem)
  | other
deriving DecidableEq, Repr

/-- One raw record of the smoothballs loader: its scalar fields plus the
shape of its "ballsSmoothed" entry. -/
structure SBRec where
  fields : Row
  ballsSmoothed : BallsField
deriving DecidableEq, Repr

/-- build_frame from load_smoothballs_10fps.py (lines 110-126): returns None
when frameNum is absent, otherwise builds the frame row, raising on
non-numeric values in the int()/float() conversions. -/
def build_frame_sb (obj : Row) (game_id : ℤ) : Except String (Option Row) :=
  match getPy obj "frameNum" with
  | none => Except.ok none
  | some fnv => do
    let fn ← pyInt fnv
    let video_time_ms ← coerceOpt pyFloat (getPy obj "videoTimeMs")
    let period ← coerceOpt pyInt (getPy obj "period")
    let period_elapsed_time ← coerceOpt pyFloat (getPy obj "periodElapsedTime")
    let period_game_clock_time ← coerceOpt pyFloat (getPy obj "periodGameClockTime")
    let game_event_id ← coerceOpt pyInt (getPyNE obj "game_event_id")
    let possession_event_id ← coerceOpt pyInt (getPyNE obj "possession_event_id")
    Except.ok (some [
      ("game_id", Val.vint game_id),
      ("frame_num", Val.vint fn),
      ("video_time_ms", optNumVal video_time_ms),
      ("period", optIntVal period),
      ("period_elapsed_time", optNumVal period_elapsed_time),
      ("period_game_clock_time", optNumVal period_game_clock_time),
      ("generated_time", getValD obj "generatedTime"),
      ("smoothed_time", getValD obj "smoothedTime"),
      ("version", getValD obj "version"),
      ("game_event_id", optIntVal game_event_id),
      ("possession_event_id", optIntVal possession_event_id)])

/-- The enumerate loop of build_balls_smoothed: skip non-dict items and
items with a missing x or y; float conversions may raise. -/
def ballRowsGo (g : ℤ) (fn : ℤ) : Nat → List BallItem → Except String (List Row)
  | _, [] => Except.ok []
  | idx, BallItem.iother :: rest => ballRowsGo g fn (idx + 1) rest
  | idx, BallItem.idict d :: rest =>
    match getPy d "x", getPy d "y" with
    | some xv, some yv => do
      let x ← pyFloat xv
      let y ← pyFloat yv
      let z ← coerceOpt pyFloat (getPy d "z")
      let rest2 ← ballRowsGo g fn (idx + 1) rest
      Except.ok ([
        ("game_id", Val.vint g),
        ("frame_num", Val.vint fn),
        ("ball_idx", Val.vint (idx : ℤ)),
        ("visibility", getValD d "visibility"),
        ("x", Val.vnum x),
        ("y", Val.vnum y),
        ("z", optNumVal z)] :: rest2)
    | _, _ => ballRowsGo g fn (idx + 1) rest

/-- build_balls_smoothed from load_smoothballs_10fps.py (lines 128-167):
normalize the ballsSmoothed value (dict becomes a singleton list, a
non-dict non-list value returns [] immediately), bail out when frameNum is
absent, then build one row per well-formed ball entry. -/
def build_balls_smoothed (obj : SBRec) (game_id : ℤ) : Except String (List Row) :=
  match obj.ballsSmoothed with
  | BallsField.other => Except.ok []
  | bsf =>
    let balls : List BallItem :=
      match bsf with
      | BallsField.missing => []
      | BallsField.bdict d => [BallItem.idict d]
      | BallsField.blist items => items
      | BallsField.other => []
    match getPy obj.fields "frameNum" with
    | none => Except.ok []
    | some fnv => do
      let fn ← pyInt fnv
      ballRowsGo game_id fn 0 balls

/-- Mutable state of the smoothballs main loop for one source unit: the
last kept timestamp, the two per-table buffers, the flush counter, and the
write calls issued so far (in order). -/
structure SBState where
  last : Option ℚ
  frames : List Row
  balls : List Row
  flushes : Nat
  writes : List (String × List Row)
deriving Repr

/-- Initial state at the start of a source unit. -/
def sbInit : SBState := ⟨none, [], [], 0, []⟩

/-- The write calls one flush issues: each nonempty buffer is deduplicated
by its table's composite key and, unless in dry-run mode, forwarded to the
writer. -/
def sbFlushCalls (cfg : SBCfg) (st : SBState) : List (String × List Row) :=
  let frames_u := if st.frames.isEmpty then [] else
    dedupe_rows st.frames ["game_id", "frame_num"]
  let balls_u := if st.balls.isEmpty then [] else
    dedupe_rows st.balls ["game_id", "frame_num", "ball_idx"]
  if cfg.dryRun then [] else
    (if frames_u.isEmpty then [] else [("tracking_frames", frames_u)]) ++
    (if balls_u.isEmpty then [] else
      [("tracking_ball_positions_smoothed", balls_u)])

/-- flush from load_smoothballs_10fps.py (lines 198-222): bump the flush
counter, issue the deduplicated writes, and clear both buffers. -/
def sbFlush (cfg : SBCfg) (st : SBState) : SBState :=
  { frames := [], balls := [], flushes := st.flushes + 1,
    writes := st.writes ++ sbFlushCalls cfg st, last := st.last }

/-- The post-append threshold check of the main loop: flush all buffers as
soon as any one buffer has reached its configured threshold. -/
def sbMaybeFlush (cfg : SBCfg) (st : SBState) : SBState :=
  if cfg.batchFrames ≤ st.frames.length ∨ cfg.batchBalls ≤ st.balls.length
  then sbFlush cfg st else st

/-- The downsampling drop condition: a last kept timestamp exists and the
new timestamp is within minDtMs of it. -/
def sbSkip (last : Option ℚ) (t : ℚ) (dt : ℚ) : Bool :=
  match last with
  | none => false
  | some l => decide (t - l < dt)

/-- One iteration of the smoothballs main loop (load_smoothballs_10fps.py
lines 238-263) over one parsed record: extract and downsample on
videoTimeMs, build the frame row, build the ball rows, append to the
buffers and flush on a crossed threshold.  An uncaught exception from a
conversion aborts the unit. -/
def sbStep (cfg : SBCfg) (g : ℤ) (st : SBState) (obj : SBRec) :
    Except String SBState :=
  match getPy obj.fields "videoTimeMs" with
  | none => Except.ok st
  | some tv =>
    match pyFloat tv with
    | Except.error e => Except.error e
    | Except.ok t =>
      if sbSkip st.last t cfg.minDtMs then Except.ok st
      else
        match build_frame_sb obj.fields g with
        | Except.error e => Except.error e
        | Except.ok none => Except.ok { st with last := some t }
        | Except.ok (some fr) =>
          match build_balls_smoothed obj g with
          | Except.error e => Except.error e
          | Except.ok bs =>
            Except.ok (sbMaybeFlush cfg
              { last := some t, frames := st.frames ++ [fr],
                balls := st.balls ++ bs, flushes := st.flushes,
                writes := st.writes })

/-- Run the smoothballs loop over the records of one source unit; on normal
completion a final end-of-file flush runs when a buffer is nonempty, while
an uncaught exception aborts the unit with the writes issued so far. -/
def sbRunGo (cfg : SBCfg) (g : ℤ) : SBState → List SBRec → SBState
  | st, [] =>
    if st.frames.isEmpty && st.balls.isEmpty then st else sbFlush cfg st
  | st, r :: rs =>
    match sbStep cfg g st r with
    | Except.ok st2 => sbRunGo cfg g st2 rs
    | Except.error _ => st

/-- The ordered write calls the pipeline performs for one source unit. -/
def sbUnitWrites (cfg : SBCfg) (g : ℤ) (recs : List SBRec) :
    List (String × List Row) :=
  (sbRunGo cfg g sbInit recs).writes

/-- The composite primary key declared for each destination table. -/
def kfOf (table : String) : List String :=
  if table = "tracking_frames" then ["game_id", "frame_num"]
  else if table = "tracking_ball_positions_smoothed" then
    ["game_id", "frame_num", "ball_idx"]
  else if table = "tracking_player_positions_smoothed" then
    ["game_id", "frame_num", "side", "jersey_num"]
  else []

/-- The destination store: a map from (table, composite key) to the stored
row. -/
def Store : Type := String × Key → Option Row

/-- Flatten write calls into the keyed overwrites they perform. -/
def flattenCalls (calls : List (String × List Row)) :
    List ((String × Key) × Row) :=
  (calls.map (fun c => c.2.map (fun r => ((c.1, keyTuple r (kfOf c.1)), r)))).flatten

/-- One upsert as a keyed overwrite of the store. -/
def applyWrite (s : Store) (w : (String × Key) × Row) : Store :=
  fun k => if w.1 = k then some w.2 else s k

/-- Apply a sequence of keyed overwrites in order. -/
def applyWrites (s : Store) (ws : List ((String × Key) × Row)) : Store :=
  ws.foldl applyWrite s

/-- The store contents after the pipeline processes one source unit. -/
def storeAfterUnit (s : Store) (cfg : SBCfg) (g : ℤ) (recs : List SBRec) :
    Store :=
  applyWrites s (flattenCalls (sbUnitWrites cfg g recs))

/-- flush from load_tracking_10fps.py (lines 136-148): forwards each
nonempty buffer to safe_upsert as-is (no deduplication), then clears all
three buffers.  Returns the write calls issued and the new buffers. -/
def flush_tracking (frames players balls : List Row) :
    List (String × List Row) × (List Row × List Row × List Row) :=
  ((if frames.isEmpty then [] else [("tracking_frames", frames)]) ++
   (if players.isEmpty then [] else [("tracking_player_positions", players)]) ++
   (if balls.isEmpty then [] else [("tracking_ball_positions", balls)]),
   ([], [], []))

/-- flush from load_smoothtracking_10fps.py (lines 154-170): deduplicates
the nonempty frame buffer by (game_id, frame_num) and the nonempty player
buffer — after dropping rows without a jersey number — by
(game_id, frame_num, side, jersey_num), forwards each to safe_upsert, and
clears both buffers.  Returns the write calls issued and the new
buffers. -/
def flush_smoothtracking (frames players : List Row) :
    List (String × List Row) × (List Row × List Row) :=
  ((if frames.isEmpty then []
    else [("tracking_frames", dedupe_rows frames ["game_id", "frame_num"])]) ++
   (if players.isEmpty then []
    else [("tracking_player_positions_smoothed",
      dedupe_rows (players.filter (fun r => (getPy r "jersey_num").isSome))
        ["game_id", "frame_num", "side", "jersey_num"])]),
   ([], []))

/-- The shirt-number conversion of load_rosters_batch.py (lines 75-79):
`shirt_number = int(shirt) if shirt not in (None, "", "nan") else None`,
so the sentinels yield null while any other non-numeric value makes the
bare int() raise. -/
def roster_shirt_number (r : Row) : Except String (Option ℤ) :=
  match getPy r "shirtNumber" with
  | none => Except.ok none
  | some (Val.vstr "") => Except.ok none
  | some (Val.vstr "nan") => Except.ok none
  | some v => (pyInt v).map some

/-- Buffer state of the tracking loader main loop. -/
structure TrkSt where
  frames : List Row
  players : List Row
  balls : List Row
  flushes : Nat
deriving Repr

/-- The threshold condition of load_tracking_10fps.py (lines 190-194). -/
def trkTrigger (batch : Nat) (f p b : List Row) : Prop :=
  batch ≤ f.length ∨ batch * 22 ≤ p.length ∨ batch * 4 ≤ b.length

instance (batch : Nat) (f p b : List Row) : Decidable (trkTrigger batch f p b) := by
  unfold trkTrigger; infer_instance

/-- One append-and-check step of the tracking loader: extend the three
buffers with the rows built from one kept record, then flush all buffers
if any one has reached its threshold (frames: batch, players: batch*22,
balls: batch*4). -/
def trkAppendStep (batch : Nat) (st : TrkSt) (nf np nb : List Row) : TrkSt :=
  let f := st.frames ++ nf
  let p := st.players ++ np
  let b := st.balls ++ nb
  if trkTrigger batch f p b then ⟨[], [], [], st.flushes + 1⟩
  else ⟨f, p, b, st.flushes⟩

/-- An environment: mapping from variable name to its value, if set. -/
def Env : Type := String → Option String

/-- Python truthiness of an optional string: unset and empty are falsy. -/
def truthyS : Option String → Bool
  | none => false
  | some s => decide (s ≠ "")

/-- Python `a or b` on optional strings. -/
def pyOrS (a b : Option String) : Option String :=
  if truthyS a then a else b

/-- The credential chain of the three tracking loaders:
`SUPABASE_SERVICE_ROLE_KEY or SUPABASE_KEY or SUPABASE_ANON_KEY`. -/
def resolve_key_chain (env : Env) : Option String :=
  pyOrS (env "SUPABASE_SERVICE_ROLE_KEY")
    (pyOrS (env "SUPABASE_KEY") (env "SUPABASE_ANON_KEY"))

/-- make_client from load_tracking_10fps.py (lines 16-21), identical in the
smoothed loaders: resolve url and the credential chain and raise when
either is missing or empty. -/
def make_client (env : Env) : Except String (String × String) :=
  let url := env "SUPABASE_URL"
  let key := resolve_key_chain env
  if truthyS url && truthyS key then
    Except.ok (url.getD "", key.getD "")
  else Except.error "Missing SUPABASE_URL and key in env"

/-- The startup check of load_events_multi.py (lines 10-16) and
load_rosters_batch.py: only SUPABASE_SERVICE_ROLE_KEY is recognized and a
missing url or key exits before any file is processed. -/
def resolve_events (env : Env) : Except String (String × String) :=
  let url := env "SUPABASE_URL"
  let key := env "SUPABASE_SERVICE_ROLE_KEY"
  if truthyS url && truthyS key then
    Except.ok (url.getD "", key.getD "")
  else Except.error "Missing SUPABASE_URL or SUPABASE_SERVICE_ROLE_KEY in .env"

/-- The client construction of load_metadata.py (line 11): reads only
SUPABASE_URL and SUPABASE_ANON_KEY and performs no check of its own. -/
def resolve_metadata (env : Env) : Option String × Option String :=
  (env "SUPABASE_URL", env "SUPABASE_ANON_KEY")

/-- Modelled from the spec: the credential-resolution precedence claim C9
asserts for every loader (a privileged service credential preferred over a
generic key, a generic key preferred over an anonymous key).  The loader
scripts under src/ are the authority for what each loader actually does;
this definition exists only to compare the claimed resolution against
them. -/
def specResolvePrecedence (env : Env) : Option String :=
  pyOrS (env "SUPABASE_SERVICE_ROLE_KEY")
    (pyOrS (env "SUPABASE_KEY") (env "SUPABASE_ANON_KEY"))

/-- Every stored pair's key is the key tuple of its row. -/
def wellKeyed (kf : List String) (m : List (Key × Row)) : Prop :=
  ∀ p ∈ m, keyTuple p.2 kf = p.1

/-- The dict's keys are pairwise distinct. -/
def keysNodup (m : List (Key × Row)) : Prop :=
  (m.map (fun p => p.1)).Nodup

/-- Two rows sharing the composite key (game_id, frame_num) with different
payloads, for concrete checks. -/
def exRowA : Row := [("game_id", Val.vint 1), ("frame_num", Val.vint 7), ("x", Val.vint 0)]

/-- Second row with the same composite key as exRowA but another payload. -/
def exRowB : Row := [("game_id", Val.vint 1), ("frame_num", Val.vint 7), ("x", Val.vint 1)]

/-- The smoothballs configuration used for concrete checks (defaults of
the script, dry run off). -/
def cfg0 : SBCfg := ⟨100, 400, 2000, false⟩

/-- A loop state with a frame buffer holding two rows that share a key. -/
def st0 : SBState := ⟨none, [exRowA, exRowB], [], 0, []⟩

/-- Empty tracking-loop buffer state for concrete checks. -/
def trkSt0 : TrkSt := ⟨[], [], [], 0⟩

/-- Nonempty row list used to drive the writer's retry loop. -/
def demoRows : List Row := [[("game_id", Val.vint 1), ("frame_num", Val.vint 1)]]

/-- Attempt outcomes: transient failures on attempts 0 and 1, success
afterwards. -/
def demoOut : Nat → Option String :=
  fun k => if k = 0 then some "ReadTimeout" else
    if k = 1 then some "Server disconnected" else none

/-- Attempt outcomes: a permanent (non-transient) failure every time. -/
def permOut : Nat → Option String := fun _ => some "boom"

/-- Environment with the url and the service-role key set and nothing
else, used to refute the claimed uniform precedence. -/
def env0 : Env := fun name =>
  if name = "SUPABASE_URL" then some "https://example.test"
  else if name = "SUPABASE_SERVICE_ROLE_KEY" then some "sk" else none

theorem lookupA_cons (p : Key × Row) (m : List (Key × Row)) (k : Key) :
    lookupA (p :: m) k = if p.1 = k then some p.2 else lookupA m k := by
  unfold lookupA
  rw [List.find?_cons]
  by_cases hp : p.1 = k
  · simp [hp]
  · simp [hp]

theorem not_mem_keys_of_hasKeyA_false {m : List (Key × Row)} {k : Key}
    (h : hasKeyA m k = false) : k ∉ m.map (fun p => p.1) := by
  intro hk
  obtain ⟨p, hpm, hpk⟩ := List.mem_map.mp hk
  have hany : m.any (fun q => decide (q.1 = k)) = true :=
    List.any_eq_true.mpr ⟨p, hpm, decide_eq_true hpk⟩
  rw [hasKeyA] at h
  rw [h] at hany
  exact Bool.false_ne_true hany

theorem find?_eq_none_of_hasKeyA_false {m : List (Key × Row)} {k : Key}
    (h : hasKeyA m k = false) :
    m.find? (fun p => decide (p.1 = k)) = none := by
  rw [List.find?_eq_none]
  intro p hp hdec
  have hany : m.any (fun p => decide (p.1 = k)) = true :=
    List.any_eq_true.mpr ⟨p, hp, hdec⟩
  rw [hasKeyA] at h
  rw [h] at hany
  exact Bool.false_ne_true hany

theorem lookupA_append (m1 m2 : List (Key × Row)) (k : Key) :
    lookupA (m1 ++ m2) k =
      match m1.find? (fun p => decide (p.1 = k)) with
      | some p => some p.2
      | none => lookupA m2 k := by
  unfold lookupA
  rw [List.find?_append]
  cases h : m1.find? (fun p => decide (p.1 = k)) <;> simp

theorem lookupA_map_replace_self {m : List (Key × Row)} {k : Key} {r : Row}
    (h : hasKeyA m k = true) :
    lookupA (m.map (fun p => if p.1 = k then (k, r) else p)) k = some r := by
  induction m with
  | nil => simp [hasKeyA] at h
  | cons p m ih =>
    by_cases hp : p.1 = k
    · simp [lookupA, List.find?_cons, hp]
    · have h2 : hasKeyA m k = true := by
        simp [hasKeyA, hp] at h
        simpa [hasKeyA] using h
      simpa [lookupA, List.find?_cons, hp] using ih h2

theorem lookupA_map_replace_other {m : List (Key × Row)} {k k2 : Key} {r : Row}
    (h : k2 ≠ k) :
    lookupA (m.map (fun p => if p.1 = k then (k, r) else p)) k2 = lookupA m k2 := by
  induction m with
  | nil => rfl
  | cons p m ih =>
    rw [List.map_cons, lookupA_cons, lookupA_cons]
    by_cases hp : p.1 = k
    · rw [if_pos hp]
      have hk2 : ¬((k, r).1 = k2) := fun hh => h (hh.symm)
      have hp2 : ¬(p.1 = k2) := by
        rw [hp]; exact fun hh => h hh.symm
      rw [if_neg hk2, if_neg hp2]
      exact ih
    · rw [if_neg hp]
      by_cases hq : p.1 = k2
      · rw [if_pos hq, if_pos hq]
      · rw [if_neg hq, if_neg hq]
        exact ih

theorem lookupA_upsertA (m : List (Key × Row)) (k : Key) (r : Row) (k2 : Key) :
    lookupA (upsertA m k r) k2 = if k2 = k then some r else lookupA m k2 := by
  unfold upsertA
  by_cases h : hasKeyA m k = true
  · rw [if_pos h]
    by_cases hk : k2 = k
    · subst hk; rw [if_pos rfl]; exact lookupA_map_replace_self h
    · rw [if_neg hk]; exact lookupA_map_replace_other hk
  · have hb : hasKeyA m k = false := by
      cases hx : hasKeyA m k
      · rfl
      · exact absurd hx h
    rw [if_neg h, lookupA_append]
    cases hm : m.find? (fun p => decide (p.1 = k2)) with
    | some p =>
      have hpm : p ∈ m := List.mem_of_find?_eq_some hm
      have hpk : p.1 = k2 := by
        have := List.find?_some hm
        exact of_decide_eq_true this
      have hk2 : k2 ≠ k := by
        intro hkk
        have : m.any (fun q => decide (q.1 = k)) = true :=
          List.any_eq_true.mpr ⟨p, hpm, by rw [hpk, hkk]; exact decide_eq_true rfl⟩
        rw [hasKeyA] at hb; rw [hb] at this; exact Bool.false_ne_true this
      rw [if_neg hk2]
      simp [lookupA, hm]
    | none =>
      by_cases hk : k2 = k
      · subst hk
        simp [lookupA, List.find?_cons]
      · rw [if_neg hk]
        have hkk : ¬(k = k2) := fun hh => hk hh.symm
        simp [lookupA, List.find?_cons, hkk, hm]

theorem upsertA_wellKeyed {kf : List String} {m : List (Key × Row)} {r : Row}
    (h : wellKeyed kf m) :
    wellKeyed kf (upsertA m (keyTuple r kf) r) := by
  unfold upsertA
  by_cases hk : hasKeyA m (keyTuple r kf) = true
  · rw [if_pos hk]
    intro p hp
    obtain ⟨q, hq, hqe⟩ := List.mem_map.mp hp
    by_cases hq1 : q.1 = keyTuple r kf
    · rw [if_pos hq1] at hqe; subst hqe; rfl
    · rw [if_neg hq1] at hqe; subst hqe; exact h q hq
  · rw [if_neg hk]
    intro p hp
    rcases List.mem_append.mp hp with hpm | hps
    · exact h p hpm
    · have : p = (keyTuple r kf, r) := List.mem_singleton.mp hps
      subst this; rfl

theorem upsertA_keysNodup {m : List (Key × Row)} {k : Key} {r : Row}
    (h : keysNodup m) :
    keysNodup (upsertA m k r) := by
  unfold upsertA
  by_cases hk : hasKeyA m k = true
  · rw [if_pos hk]
    unfold keysNodup at h ⊢
    have : (m.map (fun p => if p.1 = k then (k, r) else p)).map (fun p => p.1) =
        m.map (fun p => p.1) := by
      rw [List.map_map]
      exact List.map_congr_left (fun p _ => by
        by_cases hp : p.1 = k
        · simp [hp]
        · simp [hp])
    rw [this]; exact h
  · have hb : hasKeyA m k = false := by
      cases hx : hasKeyA m k
      · rfl
      · exact absurd hx hk
    rw [if_neg hk]
    unfold keysNodup at h ⊢
    rw [List.map_append]
    rw [List.nodup_append]
    refine ⟨h, List.nodup_singleton k, ?_⟩
    intro a ha hb2
    have hak : a = k := by simpa using hb2
    exact not_mem_keys_of_hasKeyA_false hb (hak ▸ ha)

theorem dedupeGo_wellKeyed {kf : List String} :
    ∀ (rows : List Row) (m : List (Key × Row)), wellKeyed kf m →
      wellKeyed kf (dedupeGo kf m rows) := by
  intro rows
  induction rows with
  | nil => intro m h; exact h
  | cons r rs ih => intro m h; exact ih _ (upsertA_wellKeyed h)

theorem dedupeGo_keysNodup {kf : List String} :
    ∀ (rows : List Row) (m : List (Key × Row)), keysNodup m →
      keysNodup (dedupeGo kf m rows) := by
  intro rows
  induction rows with
  | nil => intro m h; exact h
  | cons r rs ih => intro m h; exact ih _ (upsertA_keysNodup h)

theorem lookupA_of_mem {m : List (Key × Row)} {k : Key} {r : Row}
    (hnd : keysNodup m) (hm : (k, r) ∈ m) :
    lookupA m k = some r := by
  induction m with
  | nil => cases hm
  | cons p m ih =>
    unfold keysNodup at hnd
    rw [List.map_cons, List.nodup_cons] at hnd
    rcases List.mem_cons.mp hm with he | hm2
    · subst he
      simp [lookupA, List.find?_cons]
    · by_cases hp : p.1 = k
      · exfalso
        apply hnd.1
        rw [hp]
        exact List.mem_map.mpr ⟨(k, r), hm2, rfl⟩
      · have := ih hnd.2 hm2
        simpa [lookupA, List.find?_cons, hp] using this

theorem mem_of_lookupA {m : List (Key × Row)} {k : Key} {r : Row}
    (h : lookupA m k = some r) :
    (k, r) ∈ m := by
  unfold lookupA at h
  cases hf : m.find? (fun p => decide (p.1 = k)) with
  | none => rw [hf] at h; cases h
  | some q =>
    rw [hf] at h
    have hq2 : q.2 = r := by simpa using h
    have hqk : q.1 = k := by
      have := List.find?_some hf
      exact of_decide_eq_true this
    have hqm : q ∈ m := List.mem_of_find?_eq_some hf
    have hqe : q = (k, r) := by
      cases q
      simp only at hqk hq2
      rw [hqk, hq2]
    rw [← hqe]
    exact hqm

theorem dedupeGo_lookup {kf : List String} :
    ∀ (rows : List Row) (m : List (Key × Row)) (k : Key),
      lookupA (dedupeGo kf m rows) k =
        match rows.reverse.find? (fun r => decide (keyTuple r kf = k)) with
        | some r => some r
        | none => lookupA m k := by
  intro rows
  induction rows with
  | nil => intro m k; rfl
  | cons r rs ih =>
    intro m k
    show lookupA (dedupeGo kf (upsertA m (keyTuple r kf) r) rs) k = _
    rw [ih]
    rw [List.reverse_cons, List.find?_append]
    cases hm : rs.reverse.find? (fun r2 => decide (keyTuple r2 kf = k)) with
    | some r2 => simp
    | none =>
      simp only [Option.none_or]
      rw [lookupA_upsertA]
      by_cases hk : keyTuple r kf = k
      · have hf : [r].find? (fun r2 => decide (keyTuple r2 kf = k)) = some r := by
          simp [List.find?_cons, hk]
        rw [hf, if_pos hk.symm]
      · have hf : [r].find? (fun r2 => decide (keyTuple r2 kf = k)) = none := by
          simp [List.find?_cons, hk]
        rw [hf, if_neg (fun hh => hk hh.symm)]

theorem dedupe_rows_ne_nil {rows : List Row} (kf : List String)
    (h : rows ≠ []) : dedupe_rows rows kf ≠ [] := by
  cases rows with
  | nil => exact absurd rfl h
  | cons r rs =>
    intro hcon
    have hfind :
        ((r :: rs).reverse.find?
          (fun r2 => decide (keyTuple r2 kf = keyTuple r kf))).isSome = true := by
      rw [List.find?_isSome]
      exact ⟨r, List.mem_reverse.mpr (List.mem_cons_self r rs),
        decide_eq_true rfl⟩
    cases hf : (r :: rs).reverse.find?
        (fun r2 => decide (keyTuple r2 kf = keyTuple r kf)) with
    | none => rw [hf] at hfind; cases hfind
    | some r2 =>
      have hlk : lookupA (dedupeGo kf [] (r :: rs)) (keyTuple r kf) = some r2 := by
        rw [dedupeGo_lookup, hf]
      have hmem : (keyTuple r kf, r2) ∈ dedupeGo kf [] (r :: rs) :=
        mem_of_lookupA hlk
      have : r2 ∈ dedupe_rows (r :: rs) kf :=
        List.mem_map.mpr ⟨(keyTuple r kf, r2), hmem, rfl⟩
      rw [hcon] at this
      cases this

theorem dedupe_keys_nodup (rows : List Row) (kf : List String) :
    ((dedupe_rows rows kf).map (fun r => keyTuple r kf)).Nodup := by
  have hwk : wellKeyed kf (dedupeGo kf [] rows) :=
    dedupeGo_wellKeyed rows [] (fun p hp => absurd hp (List.not_mem_nil p))
  have hnd : keysNodup (dedupeGo kf [] rows) :=
    dedupeGo_keysNodup rows [] List.nodup_nil
  unfold dedupe_rows
  rw [List.map_map]
  have he : (dedupeGo kf [] rows).map ((fun r => keyTuple r kf) ∘ (fun p => p.2)) =
      (dedupeGo kf [] rows).map (fun p => p.1) :=
    List.map_congr_left (fun p hp => hwk p hp)
  rw [he]
  exact hnd

theorem downsampleFrom_chain (ts : α → Option ℚ) (dt : ℚ) :
    ∀ (l : List α) (last : Option ℚ),
      List.Chain' (fun a b => dt ≤ b - a)
        (last.toList ++ (downsampleFrom ts dt last l).filterMap ts) := by
  intro l
  induction l with
  | nil =>
    intro last
    cases last with
    | none => simp [downsampleFrom]
    | some l0 => simp [downsampleFrom]
  | cons r rs ih =>
    intro last
    cases hts : ts r with
    | none =>
      have := ih last
      simpa [downsampleFrom, hts] using this
    | some t =>
      cases last with
      | none =>
        have := ih (some t)
        simpa [downsampleFrom, hts] using this
      | some l0 =>
        by_cases hlt : t - l0 < dt
        · have := ih (some l0)
          simpa [downsampleFrom, hts, hlt] using this
        · have h2 := ih (some t)
          have hle : dt ≤ t - l0 := le_of_not_lt hlt
          simp only [Option.toList_some, List.singleton_append] at h2 ⊢
          rw [downsampleFrom]
          simp only [hts, hlt, if_false]
          rw [List.filterMap_cons, hts]
          exact List.chain'_cons.mpr ⟨hle, h2⟩

theorem downsampleFrom_isSome (ts : α → Option ℚ) (dt : ℚ) :
    ∀ (l : List α) (last : Option ℚ) (r : α),
      r ∈ downsampleFrom ts dt last l → (ts r).isSome = true := by
  intro l
  induction l with
  | nil => intro last r hr; cases hr
  | cons x rs ih =>
    intro last r hr
    cases hts : ts x with
    | none =>
      simp only [downsampleFrom, hts] at hr
      exact ih last r hr
    | some t =>
      cases last with
      | none =>
        simp only [downsampleFrom, hts] at hr
        rcases List.mem_cons.mp hr with he | hm
        · rw [he, hts]; rfl
        · exact ih (some t) r hm
      | some l0 =>
        simp only [downsampleFrom, hts] at hr
        by_cases hlt : t - l0 < dt
        · rw [if_pos hlt] at hr
          exact ih (some l0) r hr
        · rw [if_neg hlt] at hr
          rcases List.mem_cons.mp hr with he | hm
          · rw [he, hts]; rfl
          · exact ih (some t) r hm

theorem downsampleFrom_sublist (ts : α → Option ℚ) (dt : ℚ) :
    ∀ (l : List α) (last : Option ℚ),
      (downsampleFrom ts dt last l).Sublist l := by
  intro l
  induction l with
  | nil => intro last; exact List.Sublist.refl []
  | cons x rs ih =>
    intro last
    cases hts : ts x with
    | none =>
      simp only [downsampleFrom, hts]
      exact List.Sublist.cons x (ih last)
    | some t =>
      cases last with
      | none =>
        simp only [downsampleFrom, hts]
        exact List.Sublist.cons₂ x (ih (some t))
      | some l0 =>
        simp only [downsampleFrom, hts]
        by_cases hlt : t - l0 < dt
        · rw [if_pos hlt]; exact List.Sublist.cons x (ih (some l0))
        · rw [if_neg hlt]; exact List.Sublist.cons₂ x (ih (some t))

theorem applyWrites_lookup (ws : List ((String × Key) × Row)) :
    ∀ (s : Store) (k : String × Key),
      applyWrites s ws k =
        match ws.reverse.find? (fun w => decide (w.1 = k)) with
        | some w => some w.2
        | none => s k := by
  induction ws with
  | nil => intro s k; rfl
  | cons w ws ih =>
    intro s k
    show applyWrites (applyWrite s w) ws k = _
    rw [ih]
    rw [List.reverse_cons, List.find?_append]
    cases h : ws.reverse.find? (fun w2 => decide (w2.1 = k)) with
    | some w2 => simp
    | none =>
      simp only [Option.none_or]
      rw [List.find?_cons]
      by_cases hw : w.1 = k
      · simp [applyWrite, hw]
      · simp [applyWrite, hw]

theorem applyWrites_idem (s : Store) (ws : List ((String × Key) × Row)) :
    applyWrites (applyWrites s ws) ws = applyWrites s ws := by
  funext k
  cases h : ws.reverse.find? (fun w => decide (w.1 = k)) with
  | some w =>
    rw [applyWrites_lookup ws (applyWrites s ws) k,
      applyWrites_lookup ws s k, h]
  | none =>
    rw [applyWrites_lookup ws (applyWrites s ws) k,
      applyWrites_lookup ws s k, h]

theorem safeUpsertGo_succ (out : Nat → Option String) (jit : Nat → ℚ)
    (mr attempt fuel : Nat) :
    safeUpsertGo out jit mr attempt (fuel + 1) =
      match out attempt with
      | none => ⟨1, 1, none, 0, []⟩
      | some e =>
        if is_transient e = false ∨ attempt = mr - 1 then
          ⟨1, 0, some e, 0, []⟩
        else
          let r := safeUpsertGo out jit mr (attempt + 1) fuel
          ⟨r.attempts + 1, r.applied, r.error, r.replacements + 1,
           backoff attempt (jit attempt) :: r.sleeps⟩ := rfl

theorem safeUpsertGo_exhaust (out : Nat → Option String) (jit : Nat → ℚ)
    (mr : Nat)
    (hall : ∀ k, k < mr → ∃ e, out k = some e ∧ is_transient e = true) :
    ∀ (fuel attempt : Nat), attempt + fuel = mr → 1 ≤ fuel →
      (safeUpsertGo out jit mr attempt fuel).attempts = fuel ∧
      (safeUpsertGo out jit mr attempt fuel).error = out (mr - 1) ∧
      (safeUpsertGo out jit mr attempt fuel).applied = 0 := by
  intro fuel
  induction fuel with
  | zero => intro attempt hsum h1; omega
  | succ f ihf =>
    intro attempt hsum h1
    obtain ⟨e, he, htr⟩ := hall attempt (by omega)
    by_cases hf : f = 0
    · subst hf
      have hatt : attempt = mr - 1 := by omega
      rw [safeUpsertGo_succ]
      simp only [he]
      rw [if_pos (Or.inr hatt)]
      refine ⟨rfl, ?_, rfl⟩
      rw [hatt] at he
      exact he.symm
    · have hcond : ¬(is_transient e = false ∨ attempt = mr - 1) := by
        push_neg
        refine ⟨?_, by omega⟩
        rw [htr]
        exact fun hh => Bool.false_ne_true hh.symm
      have ih := ihf (attempt + 1) (by omega) (by omega)
      rw [safeUpsertGo_succ]
      simp only [he]
      rw [if_neg hcond]
      refine ⟨?_, ?_, ?_⟩
      · show (safeUpsertGo out jit mr (attempt + 1) f).attempts + 1 = f + 1
        rw [ih.1]
      · exact ih.2.1
      · exact ih.2.2

/-- Claim C1: running the pipeline twice over the same SourceUnit yields
identical final stored content.  Modelling the destination store as a map
from (table, composite key) to row and each upsert as a keyed overwrite,
the store state after processing a source unit twice from the same initial
state equals the store state after processing it once. -/
theorem pipeline_idempotent (s : Store) (cfg : SBCfg) (g : ℤ)
    (recs : List SBRec) :
    storeAfterUnit (storeAfterUnit s cfg g recs) cfg g recs =
      storeAfterUnit s cfg g recs := by
  unfold storeAfterUnit
  exact applyWrites_idem s (flattenCalls (sbUnitWrites cfg g recs))

/-- Claim C2: the downsampler keeps a record only if it has a timestamp,
kept records form a subsequence of the input, any two consecutive kept
records are at least min_dt_ms apart, and timestamps [0, 40, 90, 100, 210]
with min_dt_ms = 100 keep exactly [0, 100, 210]. -/
theorem downsampler_spec :
    (∀ (α : Type) (ts : α → Option ℚ) (dt : ℚ) (l : List α),
      List.Chain' (fun a b => dt ≤ b - a) ((downsample ts dt l).filterMap ts)
      ∧ (∀ r ∈ downsample ts dt l, (ts r).isSome = true)
      ∧ (downsample ts dt l).Sublist l)
    ∧ downsample (fun x : Option ℚ => x) 100
        [some 0, some 40, some 90, some 100, some 210] =
        [some 0, some 100, some 210] := by
  refine ?_
  constructor
  · intro α ts dt l
    refine ⟨?_, ?_, ?_⟩
    · simpa using downsampleFrom_chain ts dt l none
    · exact fun r hr => downsampleFrom_isSome ts dt l none r hr
    · exact downsampleFrom_sublist ts dt l none
  · norm_num [downsample, downsampleFrom]

/-- Concrete instantiation of downsampler_spec: the head of a singleton
input is kept and has a timestamp. -/
theorem downsampler_spec_witness :
    some (0 : ℚ) ∈ downsample (fun x : Option ℚ => x) 100 [some 0]
    ∧ (some (0 : ℚ)).isSome = true :=
  ⟨by simp [downsample, downsampleFrom],
    (downsampler_spec.1 (Option ℚ) (fun x => x) 100 [some 0]).2.1
      (some 0) (by simp [downsample, downsampleFrom])⟩

/-- Claim C3: dedupe_rows returns at most one row per distinct composite
key (the mapped key list of the result has no duplicates), the row kept
for each key is the one occurring last in input order, every input key is
represented, and two rows sharing a key reduce to exactly the
last-appended one. -/
theorem dedupe_rows_spec :
    (∀ (rows : List Row) (kf : List String),
      ((dedupe_rows rows kf).map (fun r => keyTuple r kf)).Nodup
      ∧ (∀ r ∈ dedupe_rows rows kf,
          rows.reverse.find?
            (fun r2 => decide (keyTuple r2 kf = keyTuple r kf)) = some r)
      ∧ (∀ r ∈ rows, ∃ r2, r2 ∈ dedupe_rows rows kf
          ∧ keyTuple r2 kf = keyTuple r kf))
    ∧ dedupe_rows [exRowA, exRowB] ["game_id", "frame_num"] = [exRowB] := by
  constructor
  · intro rows kf
    have hwk : wellKeyed kf (dedupeGo kf [] rows) :=
      dedupeGo_wellKeyed rows [] (fun p hp => absurd hp (List.not_mem_nil p))
    have hnd : keysNodup (dedupeGo kf [] rows) :=
      dedupeGo_keysNodup rows [] List.nodup_nil
    refine ⟨dedupe_keys_nodup rows kf, ?_, ?_⟩
    · intro r hr
      obtain ⟨p, hp, hpe⟩ := List.mem_map.mp hr
      have hkey : keyTuple r kf = p.1 := by rw [← hpe]; exact hwk p hp
      have hmem : (p.1, r) ∈ dedupeGo kf [] rows := by
        have : p = (p.1, r) := by rw [← hpe]
        rw [← this]; exact hp
      have hlk : lookupA (dedupeGo kf [] rows) p.1 = some r :=
        lookupA_of_mem hnd hmem
      rw [dedupeGo_lookup] at hlk
      rw [hkey]
      cases hf : rows.reverse.find? (fun r2 => decide (keyTuple r2 kf = p.1)) with
      | none => rw [hf] at hlk; cases hlk
      | some r2 =>
        rw [hf] at hlk
        exact hlk
    · intro r hr
      have hfind :
          (rows.reverse.find?
            (fun r2 => decide (keyTuple r2 kf = keyTuple r kf))).isSome = true := by
        rw [List.find?_isSome]
        exact ⟨r, List.mem_reverse.mpr hr, decide_eq_true rfl⟩
      cases hf : rows.reverse.find?
          (fun r2 => decide (keyTuple r2 kf = keyTuple r kf)) with
      | none => rw [hf] at hfind; cases hfind
      | some r2 =>
        have hlk : lookupA (dedupeGo kf [] rows) (keyTuple r kf) = some r2 := by
          rw [dedupeGo_lookup, hf]
        have hmem := mem_of_lookupA hlk
        refine ⟨r2, List.mem_map.mpr ⟨(keyTuple r kf, r2), hmem, rfl⟩, ?_⟩
        exact hwk (keyTuple r kf, r2) hmem
  · decide

/-- Concrete instantiation of dedupe_rows_spec: the retained row for the
duplicated key is the last occurrence in input order. -/
theorem dedupe_rows_spec_witness :
    exRowB ∈ dedupe_rows [exRowA, exRowB] ["game_id", "frame_num"]
    ∧ [exRowA, exRowB].reverse.find?
        (fun r2 => decide (keyTuple r2 ["game_id", "frame_num"] =
          keyTuple exRowB ["game_id", "frame_num"])) = some exRowB :=
  ⟨by decide,
    (dedupe_rows_spec.1 [exRowA, exRowB] ["game_id", "frame_num"]).2.1
      exRowB (by decide)⟩

/-- Claim C6: the computed backoff delay for 0-indexed attempt k is exactly
min(60, 2^k) plus the jitter, so with jitter in [0, 1) the total delay
lies in [min(60, 2^k), min(60, 2^k) + 1). -/
theorem backoff_bound (k : Nat) (j : ℚ) (h0 : 0 ≤ j) (h1 : j < 1) :
    backoff k j - j = min 60 ((2 : ℚ) ^ k)
    ∧ min 60 ((2 : ℚ) ^ k) ≤ backoff k j
    ∧ backoff k j < min 60 ((2 : ℚ) ^ k) + 1 := by
  unfold backoff
  refine ⟨by ring, by linarith, by linarith⟩

/-- Concrete instantiation of backoff_bound at attempt 3, jitter 1/2. -/
theorem backoff_bound_witness :
    (0 : ℚ) ≤ 1/2 ∧ (1/2 : ℚ) < 1
    ∧ (backoff 3 (1/2) - 1/2 = min 60 ((2 : ℚ) ^ 3)
      ∧ min 60 ((2 : ℚ) ^ 3) ≤ backoff 3 (1/2)
      ∧ backoff 3 (1/2) < min 60 ((2 : ℚ) ^ 3) + 1) :=
  ⟨by norm_num, by norm_num, backoff_bound 3 (1/2) (by norm_num) (by norm_num)⟩

/-- Claim C10: calling the writer with an empty row list performs zero
upsert attempts, applies nothing, raises nothing, replaces no client,
sleeps never, for every table name and retry budget. -/
theorem safe_upsert_empty_noop (table : String) (out : Nat → Option String)
    (jit : Nat → ℚ) (mr : Nat) :
    safe_upsert table [] out jit mr = ⟨0, 0, none, 0, []⟩ := rfl

theorem isEmpty_false_of_ne_nil {α : Type} {l : List α} (h : l ≠ []) :
    l.isEmpty = false := by
  cases l with
  | nil => exact absurd rfl h
  | cons a as => rfl

theorem sb_call_cases (cfg : SBCfg) (st : SBState) :
    ∀ c ∈ sbFlushCalls cfg st,
      (st.frames ≠ [] ∧ c = ("tracking_frames",
        dedupe_rows st.frames ["game_id", "frame_num"]))
      ∨ (st.balls ≠ [] ∧ c = ("tracking_ball_positions_smoothed",
        dedupe_rows st.balls ["game_id", "frame_num", "ball_idx"])) := by
  intro c hc
  unfold sbFlushCalls at hc
  by_cases hdry : cfg.dryRun = true
  · rw [if_pos hdry] at hc
    cases hc
  · rw [if_neg hdry] at hc
    by_cases hf : st.frames = []
    · by_cases hb : st.balls = []
      · simp [hf, hb] at hc
      · have hbe := isEmpty_false_of_ne_nil hb
        have hde := isEmpty_false_of_ne_nil
          (dedupe_rows_ne_nil ["game_id", "frame_num", "ball_idx"] hb)
        simp [hf, hbe, hde] at hc
        exact Or.inr ⟨hb, hc⟩
    · have hfe := isEmpty_false_of_ne_nil hf
      have hdf := isEmpty_false_of_ne_nil
        (dedupe_rows_ne_nil ["game_id", "frame_num"] hf)
      by_cases hb : st.balls = []
      · simp [hfe, hdf, hb] at hc
        exact Or.inl ⟨hf, hc⟩
      · have hbe := isEmpty_false_of_ne_nil hb
        have hde := isEmpty_false_of_ne_nil
          (dedupe_rows_ne_nil ["game_id", "frame_num", "ball_idx"] hb)
        simp [hfe, hdf, hbe, hde] at hc
        rcases hc with hc | hc
        · exact Or.inl ⟨hf, hc⟩
        · exact Or.inr ⟨hb, hc⟩

theorem st_call_cases (f p : List Row) :
    ∀ c ∈ (flush_smoothtracking f p).1,
      c = ("tracking_frames", dedupe_rows f ["game_id", "frame_num"])
      ∨ c = ("tracking_player_positions_smoothed",
          dedupe_rows (p.filter (fun r => (getPy r "jersey_num").isSome))
            ["game_id", "frame_num", "side", "jersey_num"]) := by
  intro c hc
  unfold flush_smoothtracking at hc
  by_cases hf : f.isEmpty
  · by_cases hp : p.isEmpty
    · simp [hf, hp] at hc
    · simp [hf, hp] at hc
      exact Or.inr hc
  · by_cases hp : p.isEmpty
    · simp [hf, hp] at hc
      exact Or.inl hc
    · simp [hf, hp] at hc
      rcases hc with hc | hc
      · exact Or.inl hc
      · exact Or.inr hc

/-- Counterexample to claim C4: the flush of load_tracking_10fps.py
forwards its buffer to the writer without deduplication — two rows with
the same composite key are both forwarded, and the forwarded list differs
from its deduplication. -/
theorem tracking_flush_no_dedupe :
    flush_tracking [exRowA, exRowB] [] [] =
      ([("tracking_frames", [exRowA, exRowB])], ([], [], []))
    ∧ ¬ (([exRowA, exRowB].map
        (fun r => keyTuple r ["game_id", "frame_num"])).Nodup)
    ∧ dedupe_rows [exRowA, exRowB] ["game_id", "frame_num"] ≠
        [exRowA, exRowB] :=
  ⟨rfl, by decide, by decide⟩

/-- Claim C4 as amended: in the smoothballs loader every flush forwards
exactly the per-table deduplicated buffers (so every forwarded row list
has pairwise-distinct composite keys) and clears all buffers; in the
smoothtracking loader every flush forwards the deduplicated frame buffer
and the deduplicated jersey-filtered player buffer (again with
pairwise-distinct composite keys) and clears both buffers; the tracking
loader's flush also clears all three buffers but forwards each raw
buffer (frames, players, balls) to the writer without any
deduplication. -/
theorem flush_dedupe_amended :
    (∀ (cfg : SBCfg) (st : SBState), cfg.dryRun = false →
      (sbFlush cfg st).frames = [] ∧ (sbFlush cfg st).balls = []
      ∧ (∀ t rows, (t, rows) ∈ sbFlushCalls cfg st →
          ((rows.map (fun r => keyTuple r (kfOf t))).Nodup))
      ∧ (st.frames ≠ [] →
          ("tracking_frames",
            dedupe_rows st.frames ["game_id", "frame_num"]) ∈
            sbFlushCalls cfg st)
      ∧ (st.balls ≠ [] →
          ("tracking_ball_positions_smoothed",
            dedupe_rows st.balls ["game_id", "frame_num", "ball_idx"]) ∈
            sbFlushCalls cfg st))
    ∧ (∀ f p, (flush_smoothtracking f p).2 = ([], [])
      ∧ (∀ t rows, (t, rows) ∈ (flush_smoothtracking f p).1 →
          ((rows.map (fun r => keyTuple r (kfOf t))).Nodup))
      ∧ (f ≠ [] →
          ("tracking_frames", dedupe_rows f ["game_id", "frame_num"]) ∈
            (flush_smoothtracking f p).1)
      ∧ (p ≠ [] →
          ("tracking_player_positions_smoothed",
            dedupe_rows (p.filter (fun r => (getPy r "jersey_num").isSome))
              ["game_id", "frame_num", "side", "jersey_num"]) ∈
            (flush_smoothtracking f p).1))
    ∧ (∀ f p b, (flush_tracking f p b).2 = ([], [], [])
      ∧ (f ≠ [] → ("tracking_frames", f) ∈ (flush_tracking f p b).1)
      ∧ (p ≠ [] →
          ("tracking_player_positions", p) ∈ (flush_tracking f p b).1)
      ∧ (b ≠ [] →
          ("tracking_ball_positions", b) ∈ (flush_tracking f p b).1)) := by
  refine ⟨?_, ?_, ?_⟩
  · intro cfg st hdry
    refine ⟨rfl, rfl, ?_, ?_, ?_⟩
    · intro t rows hmem
      rcases sb_call_cases cfg st (t, rows) hmem with ⟨h1, he⟩ | ⟨h1, he⟩
      · obtain ⟨ht, hrows⟩ := Prod.mk.injEq .. |>.mp he
        subst ht
        subst hrows
        have hk : kfOf "tracking_frames" = ["game_id", "frame_num"] := rfl
        rw [hk]
        exact dedupe_keys_nodup st.frames ["game_id", "frame_num"]
      · obtain ⟨ht, hrows⟩ := Prod.mk.injEq .. |>.mp he
        subst ht
        subst hrows
        have hk : kfOf "tracking_ball_positions_smoothed" =
            ["game_id", "frame_num", "ball_idx"] := rfl
        rw [hk]
        exact dedupe_keys_nodup st.balls ["game_id", "frame_num", "ball_idx"]
    · intro hf
      have hfe := isEmpty_false_of_ne_nil hf
      have hdf := isEmpty_false_of_ne_nil
        (dedupe_rows_ne_nil ["game_id", "frame_num"] hf)
      simp [sbFlushCalls, hdry, hfe, hdf]
    · intro hb
      have hbe := isEmpty_false_of_ne_nil hb
      have hde := isEmpty_false_of_ne_nil
        (dedupe_rows_ne_nil ["game_id", "frame_num", "ball_idx"] hb)
      simp [sbFlushCalls, hdry, hbe, hde]
  · intro f p
    refine ⟨rfl, ?_, ?_, ?_⟩
    · intro t rows hmem
      rcases st_call_cases f p (t, rows) hmem with he | he
      · obtain ⟨ht, hrows⟩ := Prod.mk.injEq .. |>.mp he
        subst ht
        subst hrows
        have hk : kfOf "tracking_frames" = ["game_id", "frame_num"] := rfl
        rw [hk]
        exact dedupe_keys_nodup f ["game_id", "frame_num"]
      · obtain ⟨ht, hrows⟩ := Prod.mk.injEq .. |>.mp he
        subst ht
        subst hrows
        have hk : kfOf "tracking_player_positions_smoothed" =
            ["game_id", "frame_num", "side", "jersey_num"] := rfl
        rw [hk]
        exact dedupe_keys_nodup
          (p.filter (fun r => (getPy r "jersey_num").isSome))
          ["game_id", "frame_num", "side", "jersey_num"]
    · intro hf
      have hfe := isEmpty_false_of_ne_nil hf
      simp [flush_smoothtracking, hfe]
    · intro hp
      have hpe := isEmpty_false_of_ne_nil hp
      simp [flush_smoothtracking, hpe]
  · intro f p b
    refine ⟨rfl, fun hf => ?_, fun hp => ?_, fun hb => ?_⟩
    · have hfe := isEmpty_false_of_ne_nil hf
      simp [flush_tracking, hfe]
    · have hpe := isEmpty_false_of_ne_nil hp
      simp [flush_tracking, hpe]
    · have hbe := isEmpty_false_of_ne_nil hb
      simp [flush_tracking, hbe]

/-- Concrete instantiation of flush_dedupe_amended: a nonempty frame
buffer is forwarded in deduplicated form. -/
theorem flush_dedupe_amended_witness :
    cfg0.dryRun = false ∧ st0.frames ≠ []
    ∧ ("tracking_frames", dedupe_rows st0.frames ["game_id", "frame_num"]) ∈
        sbFlushCalls cfg0 st0 :=
  ⟨rfl, by decide,
    (flush_dedupe_amended.1 cfg0 st0 rfl).2.2.2.1 (by decide)⟩

/-- Claim C5: a non-transient exception on the first attempt propagates
after exactly one attempt with no retry, no client replacement and no
sleep; all-transient failures exhaust the budget of mr attempts and
propagate the last error with no applied upsert; transient failures on
attempts 1 and 2 followed by success on attempt 3 make exactly three
attempts, one applied upsert and two client replacements; the default
budget is 8. -/
theorem safe_upsert_retry_spec :
    (∀ (table : String) (rows : List Row) (out : Nat → Option String)
        (jit : Nat → ℚ) (mr : Nat) (e : String),
      rows ≠ [] → 1 ≤ mr → out 0 = some e → is_transient e = false →
      safe_upsert table rows out jit mr = ⟨1, 0, some e, 0, []⟩)
    ∧ (∀ (table : String) (rows : List Row) (out : Nat → Option String)
        (jit : Nat → ℚ) (mr : Nat),
      rows ≠ [] → 1 ≤ mr →
      (∀ k, k < mr → ∃ e, out k = some e ∧ is_transient e = true) →
      (safe_upsert table rows out jit mr).attempts = mr
      ∧ (safe_upsert table rows out jit mr).error = out (mr - 1)
      ∧ (safe_upsert table rows out jit mr).applied = 0)
    ∧ safe_upsert "tracking_frames" demoRows demoOut (fun _ => 0) 8 =
        ⟨3, 1, none, 2, [1, 2]⟩
    ∧ max_retries_default = 8 := by
  refine ⟨?_, ?_, ?_, rfl⟩
  · intro table rows out jit mr e hrows hmr hout htr
    cases rows with
    | nil => exact absurd rfl hrows
    | cons r rs =>
      cases mr with
      | zero => omega
      | succ m =>
        show safeUpsertGo out jit (m + 1) 0 (m + 1) = _
        rw [safeUpsertGo_succ]
        simp only [hout]
        rw [if_pos (Or.inl htr)]
  · intro table rows out jit mr hrows hmr hall
    cases rows with
    | nil => exact absurd rfl hrows
    | cons r rs =>
      have h := safeUpsertGo_exhaust out jit mr hall mr 0 (by omega) hmr
      exact h
  · have hb0 : backoff 0 (0 : ℚ) = 1 := by
      unfold backoff
      rw [pow_zero, min_eq_right (by norm_num : (1 : ℚ) ≤ 60)]
      norm_num
    have hb1 : backoff 1 (0 : ℚ) = 2 := by
      unfold backoff
      rw [pow_one, min_eq_right (by norm_num : (2 : ℚ) ≤ 60)]
      norm_num
    have h2 : safeUpsertGo demoOut (fun _ => 0) 8 2 6 = ⟨1, 1, none, 0, []⟩ := by
      rw [safeUpsertGo_succ]
      rfl
    have h1 : safeUpsertGo demoOut (fun _ => 0) 8 1 7 =
        ⟨2, 1, none, 1, [2]⟩ := by
      rw [safeUpsertGo_succ]
      simp only [show demoOut 1 = some "Server disconnected" from rfl]
      rw [if_neg (by decide)]
      simp only [h2, hb1]
    show safeUpsertGo demoOut (fun _ => 0) 8 0 8 = _
    rw [safeUpsertGo_succ]
    simp only [show demoOut 0 = some "ReadTimeout" from rfl]
    rw [if_neg (by decide)]
    simp only [h1, hb0]

/-- Concrete instantiation of safe_upsert_retry_spec: a permanent failure
on the first attempt makes one attempt and propagates. -/
theorem safe_upsert_retry_spec_witness :
    demoRows ≠ [] ∧ (1 : Nat) ≤ 8 ∧ permOut 0 = some "boom"
    ∧ is_transient "boom" = false
    ∧ safe_upsert "tracking_frames" demoRows permOut (fun _ => 0) 8 =
        ⟨1, 0, some "boom", 0, []⟩ :=
  ⟨by simp [demoRows], by norm_num, rfl, by decide,
    safe_upsert_retry_spec.1 "tracking_frames" demoRows permOut (fun _ => 0)
      8 "boom" (by simp [demoRows]) (by norm_num) rfl (by decide)⟩

/-- Claim C7: in a post-append threshold check, crossing any one table's
threshold flushes all buffers exactly once and leaves every buffer empty;
when no threshold is reached nothing is flushed; with positive thresholds
every buffer is strictly below its threshold after each step (hence at
the start of each iteration). -/
theorem threshold_flush_spec :
    (∀ (batch : Nat) (st : TrkSt) (nf np nb : List Row), 1 ≤ batch →
      (trkTrigger batch (st.frames ++ nf) (st.players ++ np) (st.balls ++ nb) →
        trkAppendStep batch st nf np nb = ⟨[], [], [], st.flushes + 1⟩)
      ∧ (¬ trkTrigger batch (st.frames ++ nf) (st.players ++ np)
            (st.balls ++ nb) →
        trkAppendStep batch st nf np nb =
          ⟨st.frames ++ nf, st.players ++ np, st.balls ++ nb, st.flushes⟩)
      ∧ ((trkAppendStep batch st nf np nb).frames.length < batch
        ∧ (trkAppendStep batch st nf np nb).players.length < batch * 22
        ∧ (trkAppendStep batch st nf np nb).balls.length < batch * 4))
    ∧ (∀ (cfg : SBCfg) (st : SBState),
        1 ≤ cfg.batchFrames → 1 ≤ cfg.batchBalls →
      (sbMaybeFlush cfg st).frames.length < cfg.batchFrames
      ∧ (sbMaybeFlush cfg st).balls.length < cfg.batchBalls)
    ∧ (∀ (cfg : SBCfg) (st : SBState),
      (sbFlush cfg st).frames = [] ∧ (sbFlush cfg st).balls = []
      ∧ (sbFlush cfg st).flushes = st.flushes + 1
      ∧ (cfg.batchFrames ≤ st.frames.length ∨
            cfg.batchBalls ≤ st.balls.length →
          sbMaybeFlush cfg st = sbFlush cfg st)
      ∧ (¬ (cfg.batchFrames ≤ st.frames.length ∨
            cfg.batchBalls ≤ st.balls.length) →
          sbMaybeFlush cfg st = st)) := by
  refine ⟨?_, ?_, ?_⟩
  · intro batch st nf np nb hb
    unfold trkAppendStep
    by_cases ht : trkTrigger batch (st.frames ++ nf) (st.players ++ np)
        (st.balls ++ nb)
    · rw [if_pos ht]
      refine ⟨fun _ => rfl, fun hn => absurd ht hn, ?_⟩
      refine ⟨?_, ?_, ?_⟩ <;> simp <;> omega
    · rw [if_neg ht]
      refine ⟨fun hc => absurd hc ht, fun _ => rfl, ?_⟩
      unfold trkTrigger at ht
      push_neg at ht
      exact ⟨ht.1, ht.2.1, ht.2.2⟩
  · intro cfg st h1 h2
    unfold sbMaybeFlush
    by_cases ht : cfg.batchFrames ≤ st.frames.length ∨
        cfg.batchBalls ≤ st.balls.length
    · rw [if_pos ht]
      unfold sbFlush
      constructor <;> simp <;> omega
    · rw [if_neg ht]
      push_neg at ht
      exact ⟨ht.1, ht.2⟩
  · intro cfg st
    refine ⟨rfl, rfl, rfl, fun ht => ?_, fun hn => ?_⟩
    · unfold sbMaybeFlush; rw [if_pos ht]
    · unfold sbMaybeFlush; rw [if_neg hn]

/-- Concrete instantiation of threshold_flush_spec: with threshold 1,
appending one frame row triggers exactly one flush leaving all buffers
empty. -/
theorem threshold_flush_spec_witness :
    (1 : Nat) ≤ 1
    ∧ trkTrigger 1 (trkSt0.frames ++ [exRowA]) (trkSt0.players ++ [])
        (trkSt0.balls ++ [])
    ∧ trkAppendStep 1 trkSt0 [exRowA] [] [] =
        ⟨[], [], [], trkSt0.flushes + 1⟩ :=
  ⟨le_refl 1, by simp [trkSt0, trkTrigger],
    (threshold_flush_spec.1 1 trkSt0 [exRowA] [] [] (le_refl 1)).1
      (by simp [trkSt0, trkTrigger])⟩

theorem safe_int_toOption (x : Val) : safe_int x = (pyInt x).toOption := by
  cases x <;> rfl

theorem safe_float_toOption (x : Val) : safe_float x = (pyFloat x).toOption := by
  cases x <;> rfl

/-- Counterexample to claim C8: build_frame of load_tracking_10fps.py
raises on a record whose frameNum field holds a non-numeric string,
instead of coercing it to null. -/
theorem build_frame_raises :
    build_frame [("frameNum", Val.vstr "x")] 7 = Except.error "ValueError" :=
  rfl

/-- Claim C8 as amended: safe_int and safe_float of load_events_multi.py
coerce defensively (null on any raised conversion, the value on success,
never an uncaught raise), but the bare int()/float() conversions of the
row builders elsewhere are guarded only against sentinel values and
raise on a non-numeric string in a numeric field: build_frame of
load_tracking_10fps.py, the frame builder shared by the smoothed loaders
(build_frame of load_smoothballs_10fps.py and the semantically identical
build_frame of load_smoothtracking_10fps.py, embedded once as
build_frame_sb), and the shirt-number conversion of
load_rosters_batch.py (whose sentinels None, "" and "nan" do yield
null, and which converts a numeric value); the tracking build_frame with
all optional fields absent does build a row of nulls. -/
theorem numeric_coercion_amended :
    (∀ (x : Val) (e : String), pyInt x = Except.error e → safe_int x = none)
    ∧ (∀ (x : Val) (n : ℤ), pyInt x = Except.ok n → safe_int x = some n)
    ∧ (∀ (x : Val) (e : String), pyFloat x = Except.error e →
        safe_float x = none)
    ∧ (∀ (x : Val) (q : ℚ), pyFloat x = Except.ok q → safe_float x = some q)
    ∧ build_frame [("frameNum", Val.vstr "x")] 7 = Except.error "ValueError"
    ∧ build_frame_sb [("frameNum", Val.vstr "x")] 7 =
        Except.error "ValueError"
    ∧ roster_shirt_number [("shirtNumber", Val.vstr "x")] =
        Except.error "ValueError"
    ∧ roster_shirt_number [] = Except.ok none
    ∧ roster_shirt_number [("shirtNumber", Val.vstr "")] = Except.ok none
    ∧ roster_shirt_number [("shirtNumber", Val.vstr "nan")] = Except.ok none
    ∧ roster_shirt_number [("shirtNumber", Val.vint 7)] = Except.ok (some 7)
    ∧ build_frame [] 7 = Except.ok [
        ("game_id", Val.vint 7), ("frame_num", Val.null),
        ("video_time_ms", Val.null), ("period", Val.null),
        ("period_elapsed_time", Val.null),
        ("period_game_clock_time", Val.null),
        ("game_event_id", Val.null), ("possession_event_id", Val.null)] := by
  refine ⟨?_, ?_, ?_, ?_, rfl, rfl, rfl, rfl, rfl, rfl, rfl, rfl⟩
  · intro x e h
    rw [safe_int_toOption, h]
    rfl
  · intro x n h
    rw [safe_int_toOption, h]
    rfl
  · intro x e h
    rw [safe_float_toOption, h]
    rfl
  · intro x q h
    rw [safe_float_toOption, h]
    rfl

/-- Concrete instantiation of numeric_coercion_amended: safe_int turns the
ValueError of int on a non-numeric string into null. -/
theorem numeric_coercion_amended_witness :
    pyInt (Val.vstr "a") = Except.error "ValueError"
    ∧ safe_int (Val.vstr "a") = none :=
  ⟨rfl, numeric_coercion_amended.1 (Val.vstr "a") "ValueError" rfl⟩

/-- Counterexample to claim C9: with the service-role key set, the claimed
precedence resolves it, but load_metadata.py reads only the anonymous key
and resolves no credential at all (and performs no fail-fast check of its
own). -/
theorem metadata_ignores_precedence :
    specResolvePrecedence env0 = some "sk"
    ∧ (resolve_metadata env0).2 = none
    ∧ (resolve_metadata env0).2 ≠ specResolvePrecedence env0 :=
  ⟨rfl, rfl, by decide⟩

/-- Claim C9 as amended: the three tracking loaders resolve the credential
with the precedence service-role over generic over anonymous (Python
truthiness: unset and empty both fall through) and fail fast when the url
or every credential is missing or empty; the events and rosters loaders
recognize only the service-role key and fail fast likewise; the metadata
loader reads only the anonymous key and performs no check in the
repository's own code. -/
theorem credential_resolution_amended :
    (∀ (env : Env) (s : String),
      env "SUPABASE_SERVICE_ROLE_KEY" = some s → s ≠ "" →
      resolve_key_chain env = some s)
    ∧ (∀ (env : Env) (s : String),
      truthyS (env "SUPABASE_SERVICE_ROLE_KEY") = false →
      env "SUPABASE_KEY" = some s → s ≠ "" →
      resolve_key_chain env = some s)
    ∧ (∀ (env : Env),
      truthyS (env "SUPABASE_SERVICE_ROLE_KEY") = false →
      truthyS (env "SUPABASE_KEY") = false →
      resolve_key_chain env = env "SUPABASE_ANON_KEY")
    ∧ (∀ (env : Env), truthyS (env "SUPABASE_URL") = false →
      ∃ msg, make_client env = Except.error msg)
    ∧ (∀ (env : Env), truthyS (resolve_key_chain env) = false →
      ∃ msg, make_client env = Except.error msg)
    ∧ (∀ (env : Env) (u k : String),
      env "SUPABASE_URL" = some u → u ≠ "" →
      resolve_key_chain env = some k → k ≠ "" →
      make_client env = Except.ok (u, k))
    ∧ (∀ (env : Env),
      truthyS (env "SUPABASE_URL") = false ∨
        truthyS (env "SUPABASE_SERVICE_ROLE_KEY") = false →
      ∃ msg, resolve_events env = Except.error msg)
    ∧ (∀ (env : Env),
      resolve_metadata env = (env "SUPABASE_URL", env "SUPABASE_ANON_KEY")) := by
  refine ⟨?_, ?_, ?_, ?_, ?_, ?_, ?_, fun env => rfl⟩
  · intro env s hs hne
    unfold resolve_key_chain pyOrS
    rw [hs]
    simp [truthyS, hne]
  · intro env s hserv hk hne
    unfold resolve_key_chain pyOrS
    rw [hserv, hk]
    simp [truthyS, hne]
  · intro env h1 h2
    unfold resolve_key_chain pyOrS
    rw [h1, h2]
    simp
  · intro env hurl
    exact ⟨"Missing SUPABASE_URL and key in env", by simp [make_client, hurl]⟩
  · intro env hkey
    exact ⟨"Missing SUPABASE_URL and key in env", by simp [make_client, hkey]⟩
  · intro env u k hu hune hk hkne
    simp [make_client, hu, hk, truthyS, hune, hkne]
  · intro env h
    rcases h with h | h
    · exact ⟨"Missing SUPABASE_URL or SUPABASE_SERVICE_ROLE_KEY in .env",
        by simp [resolve_events, h]⟩
    · exact ⟨"Missing SUPABASE_URL or SUPABASE_SERVICE_ROLE_KEY in .env",
        by simp [resolve_events, h]⟩

/-- Concrete instantiation of credential_resolution_amended: the tracking
chain resolves the service-role key when it is set and nonempty. -/
theorem credential_resolution_amended_witness :
    env0 "SUPABASE_SERVICE_ROLE_KEY" = some "sk" ∧ ("sk" : String) ≠ ""
    ∧ resolve_key_chain env0 = some "sk" :=
  ⟨rfl, by decide, credential_resolution_amended.1 env0 "sk" rfl (by decide)⟩

end TVA
